import Mathlib

/-!
Verification of the Mandelbrot escape-time engine (`src/lib.rs`).

Shallow embedding conventions:
* Rust `f64` values are modelled as exact rationals (`ℚ`); the engine only
  uses field operations and order comparisons on them.  A second, separate
  model (`FE` namespace) extends the rationals with a NaN element
  (`Option ℚ` with `none` = NaN) for the claims that are specifically about
  NaN propagation through the arithmetic, and a third (`FX` namespace)
  carries NaN and both signed infinities with IEEE special-value rules for
  the termination claim, whose inputs include infinite components.
* Rust `u32` values are modelled as `ℕ`; none of the integer arithmetic in
  the source can overflow `u32` for the inputs the claims quantify over.
* The `assert!` in `CoordRange::new` (a fatal abort) is modelled by making
  the constructor return `Option`: `none` is the abort.
* The unbounded `loop` in `Complex::in_mand` is modelled with explicit
  fuel; `in_mand_go` returns `none` when the fuel runs out.  Fuel
  `iters + 2` is always sufficient (proved below: the loop leaves after at
  most `iters + 2` passes), so the `Option.getD` default is never used.
-/

namespace Mandel

/-- The pixel classification enum from the source: `Out = 0`, `In = 1`. -/
inductive Pixel where
  | Out : Pixel
  | In : Pixel
deriving DecidableEq, Repr

/-- `CoordRange { min: f64, max: f64 }` with `f64` as `ℚ`. -/
structure CoordRange where
  min : ℚ
  max : ℚ
deriving DecidableEq, Repr

/-- `CoordRange::new(min, max)`: `assert!(min <= max)` then construct.
The assert (fatal abort) is modelled as `none`. -/
def CoordRange.new (min max : ℚ) : Option CoordRange :=
  if min ≤ max then some ⟨min, max⟩ else none

/-- `CoordRange::size`: `self.max - self.min`. -/
def CoordRange.size (c : CoordRange) : ℚ :=
  c.max - c.min

/-- `CoordRange::get_position_by_portion`: `portion * self.size() + self.min`. -/
def CoordRange.get_position_by_portion (c : CoordRange) (portion : ℚ) : ℚ :=
  portion * c.size + c.min

/-- `Complex { r: f64, i: f64 }` with `f64` as `ℚ`. -/
structure Complex where
  r : ℚ
  i : ℚ
deriving DecidableEq, Repr

/-- `Complex::dist_squared`: `self.r * self.r + self.i * self.i`. -/
def Complex.dist_squared (z : Complex) : ℚ :=
  z.r * z.r + z.i * z.i

/-- `Complex::square`: `(r*r - i*i, 2*r*i)`. -/
def Complex.square (z : Complex) : Complex :=
  ⟨z.r * z.r - z.i * z.i, 2 * z.r * z.i⟩

/-- `Complex::plus`: component-wise addition. -/
def Complex.plus (z c : Complex) : Complex :=
  ⟨z.r + c.r, z.i + c.i⟩

/-- The loop body of `Complex::in_mand`, with explicit fuel.  Each pass
performs `z = z.square().plus(self)`, then the escape check
`z.dist_squared() > 4.0`, then the budget check `iter > *iters`, then
`iter += 1` and the next pass.  `none` means the fuel ran out before the
loop broke. -/
def in_mand_go (c : Complex) (iters : ℕ) : ℕ → ℕ → Complex → Option Bool
  | 0, _, _ => none
  | fuel + 1, iter, z =>
    if 4 < ((z.square).plus c).dist_squared then some false
    else if iters < iter then some true
    else in_mand_go c iters fuel (iter + 1) ((z.square).plus c)

/-- `Complex::in_mand(iters)`: starts from `iter = 0`, `z = (0,0)` and runs
the loop.  Fuel `iters + 2` always suffices (`in_mand_go_isSome` below), so
the default `false` is never taken.  The argument repeated in the escape
check and the recursive call is the rebound `z` of the source loop. -/
def Complex.in_mand (c : Complex) (iters : ℕ) : Bool :=
  (in_mand_go c iters (iters + 2) 0 ⟨0, 0⟩).getD false

/-- The iterate sequence of the loop: `iterFrom c k z` applies
`z = z.square().plus(c)` exactly `k` times starting from `z`. -/
def iterFrom (c : Complex) : ℕ → Complex → Complex
  | 0, z => z
  | k + 1, z => iterFrom c k ((z.square).plus c)

/-- `RowCol { width, height, row, col }` (all `u32`, modelled as `ℕ`). -/
structure RowCol where
  width : ℕ
  height : ℕ
  row : ℕ
  col : ℕ
deriving DecidableEq, Repr

/-- `RowCol::from_index(index, width, height)`: `row = index / height`,
`col = index % width`.  Faithful to the source for nonzero width and
height (Rust would panic on division by zero; `ℕ` division is total). -/
def RowCol.from_index (index width height : ℕ) : RowCol :=
  ⟨width, height, index / height, index % width⟩

/-- `RowCol::to_complex(r_range, i_range)`: portions `col/width` and
`row/height` as `f64` fractions, mapped through the ranges; the column
maps to the real part, the row to the imaginary part. -/
def RowCol.to_complex (rc : RowCol) (r_range i_range : CoordRange) : Complex :=
  let r_portion : ℚ := (rc.col : ℚ) / (rc.width : ℚ)
  let i_portion : ℚ := (rc.row : ℚ) / (rc.height : ℚ)
  let r_position := r_range.get_position_by_portion r_portion
  let i_position := i_range.get_position_by_portion i_portion
  ⟨r_position, i_position⟩

/-- `Mand { width: u32, height: u32, pixels: Vec<Pixel> }`. -/
structure Mand where
  width : ℕ
  height : ℕ
  pixels : List Pixel

/-- `Mand::new(x_min, x_max, y_min, y_max)`: fixed `width = height = 800`,
fixed `iters = 200`; builds both coordinate ranges (each may abort) and
maps every pixel index `0..width*height` through the
index → RowCol → Complex → `in_mand` pipeline. -/
def Mand.new (x_min x_max y_min y_max : ℚ) : Option Mand := do
  let width := 800
  let height := 800
  let x_range ← CoordRange.new x_min x_max
  let y_range ← CoordRange.new y_min y_max
  let iters := 200
  let pixels := (List.range (width * height)).map fun p =>
    if ((RowCol.from_index p width height).to_complex x_range y_range).in_mand iters
    then Pixel.In else Pixel.Out
  some ⟨width, height, pixels⟩

/-- C4: `from_index` computes `row = index / height` (division by height,
not width) and `col = index % width`; for width = height = 512, index 0
maps to (0, 0) and index 153800 maps to row 300, col 200. -/
theorem C4_from_index_row_col :
    (∀ index width height : ℕ, width ≠ 0 → height ≠ 0 →
      (RowCol.from_index index width height).row = index / height ∧
      (RowCol.from_index index width height).col = index % width) ∧
    (RowCol.from_index 0 512 512).row = 0 ∧
    (RowCol.from_index 0 512 512).col = 0 ∧
    (RowCol.from_index 153800 512 512).row = 300 ∧
    (RowCol.from_index 153800 512 512).col = 200 := by
  refine ⟨fun index width height _ _ => ⟨rfl, rfl⟩, ?_, ?_, ?_, ?_⟩ <;> decide

/-- Witness for C4 at index 153800, width = height = 512. -/
theorem C4_from_index_row_col_witness :
    (RowCol.from_index 153800 512 512).row = 153800 / 512 ∧
    (RowCol.from_index 153800 512 512).col = 153800 % 512 :=
  C4_from_index_row_col.1 153800 512 512 (by decide) (by decide)

/-- C5: `to_complex` maps the column fraction `col / width` through the
real-axis range and the row fraction `row / height` through the
imaginary-axis range; with ranges [-2, 1] and [-3/2, 3/2], the pixel at
row 0, col 0 maps exactly to (-2, -3/2). -/
theorem C5_to_complex_mapping :
    (∀ (rc : RowCol) (r_range i_range : CoordRange),
      (rc.to_complex r_range i_range).r =
        r_range.get_position_by_portion ((rc.col : ℚ) / (rc.width : ℚ)) ∧
      (rc.to_complex r_range i_range).i =
        i_range.get_position_by_portion ((rc.row : ℚ) / (rc.height : ℚ))) ∧
    (RowCol.from_index 0 512 512).to_complex ⟨-2, 1⟩ ⟨-3/2, 3/2⟩ =
      ⟨-2, -3/2⟩ := by
  refine ⟨fun rc r_range i_range => ⟨rfl, rfl⟩, ?_⟩
  simp only [RowCol.from_index, RowCol.to_complex, CoordRange.get_position_by_portion,
    CoordRange.size]
  norm_num

/-- C6: `size` is `max - min` and `get_position_by_portion` is
`min + portion * size()` for every portion, with no clamping; the range
[-2, 3] has size 5 and portions 0, 1/2, 1 map to -2, 1/2, 3. -/
theorem C6_portion_mapping :
    (∀ (mn mx portion : ℚ), mn ≤ mx →
      (CoordRange.mk mn mx).size = mx - mn ∧
      (CoordRange.mk mn mx).get_position_by_portion portion =
        mn + portion * (mx - mn)) ∧
    (CoordRange.mk (-2) 3).size = 5 ∧
    (CoordRange.mk (-2) 3).get_position_by_portion 0 = -2 ∧
    (CoordRange.mk (-2) 3).get_position_by_portion (1/2) = 1/2 ∧
    (CoordRange.mk (-2) 3).get_position_by_portion 1 = 3 := by
  refine ⟨fun mn mx portion _ => ⟨rfl, ?_⟩, ?_, ?_, ?_, ?_⟩
  · simp only [CoordRange.get_position_by_portion, CoordRange.size]; ring
  all_goals
    simp only [CoordRange.get_position_by_portion, CoordRange.size]
    norm_num

/-- Witness for C6: the general part applied to the range [-2, 3] at the
extrapolating portion 7 (outside [0, 1], no clamping). -/
theorem C6_portion_mapping_witness :
    (CoordRange.mk (-2) 3).size = 3 - (-2) ∧
    (CoordRange.mk (-2) 3).get_position_by_portion 7 = -2 + 7 * (3 - (-2)) :=
  C6_portion_mapping.1 (-2) 3 7 (by norm_num)

/-- C7: `CoordRange::new(min, max)` aborts exactly when `min > max` and
otherwise constructs the interval; consequently `Mand::new` succeeds
exactly when both axes satisfy `min ≤ max` (one fatal path, one success
path). -/
theorem C7_new_abort_iff :
    (∀ mn mx : ℚ, (CoordRange.new mn mx = none ↔ mx < mn)) ∧
    (∀ mn mx : ℚ, mn ≤ mx → CoordRange.new mn mx = some ⟨mn, mx⟩) ∧
    (∀ a b c d : ℚ, (Mand.new a b c d).isSome = true ↔ (a ≤ b ∧ c ≤ d)) := by
  refine ⟨fun mn mx => ?_, fun mn mx h => ?_, fun a b c d => ?_⟩
  · simp only [CoordRange.new]
    split
    · simp only [reduceCtorEq, false_iff, not_lt]; assumption
    · simp only [true_iff]; exact not_le.mp (by assumption)
  · simp only [CoordRange.new, if_pos h]
  · simp only [Mand.new, CoordRange.new, Option.bind_eq_bind]
    by_cases hab : a ≤ b <;> by_cases hcd : c ≤ d <;>
      simp [hab, hcd, Option.isSome]

/-- Witness for C7: the success path at the concrete range [-2, 1]. -/
theorem C7_new_abort_iff_witness :
    CoordRange.new (-2) 1 = some ⟨-2, 1⟩ :=
  C7_new_abort_iff.2.1 (-2) 1 (by norm_num)

/-- One application of the loop body to the iterate: `iterFrom c (k+1) z`
is the loop update applied to `iterFrom c k z`. -/
theorem iterFrom_succ_apply (c : Complex) :
    ∀ (k : ℕ) (z : Complex),
      iterFrom c (k + 1) z = ((iterFrom c k z).square).plus c
  | 0, _ => rfl
  | k + 1, z => by
    show iterFrom c (k + 1) ((z.square).plus c) = _
    rw [iterFrom_succ_apply c k ((z.square).plus c)]
    rfl

/-- The loop returns `some true` from a state with fuel matching the
remaining budget exactly when all the iterates it still checks stay at
squared distance at most 4. -/
theorem in_mand_go_true_iff (c : Complex) (iters : ℕ) :
    ∀ (fuel iter : ℕ) (z : Complex), 1 ≤ fuel → iter + fuel = iters + 2 →
      (in_mand_go c iters fuel iter z = some true ↔
        ∀ j, 1 ≤ j → j ≤ fuel → (iterFrom c j z).dist_squared ≤ 4)
  | 0, _, _, h1, _ => absurd h1 (by omega)
  | fuel + 1, iter, z, _, hsum => by
    simp only [in_mand_go]
    by_cases hesc : 4 < (((z.square).plus c).dist_squared)
    · rw [if_pos hesc]
      refine iff_of_false (by simp) ?_
      intro h
      have h1 := h 1 (by omega) (by omega)
      simp only [iterFrom] at h1
      exact absurd hesc (not_lt.mpr h1)
    · rw [if_neg hesc]
      by_cases hbud : iters < iter
      · rw [if_pos hbud]
        have hf0 : fuel = 0 := by omega
        subst hf0
        refine iff_of_true rfl ?_
        intro j hj1 hj2
        have hj : j = 1 := by omega
        subst hj
        simpa only [iterFrom] using not_lt.mp hesc
      · rw [if_neg hbud]
        have hfuel1 : 1 ≤ fuel := by omega
        rw [in_mand_go_true_iff c iters fuel (iter + 1) ((z.square).plus c)
          hfuel1 (by omega)]
        constructor
        · intro h j hj1 hj2
          cases j with
          | zero => omega
          | succ k =>
            cases k with
            | zero => simpa only [iterFrom] using not_lt.mp hesc
            | succ k2 =>
              have hk := h (k2 + 1) (by omega) (by omega)
              simpa only [iterFrom] using hk
        · intro h j hj1 hj2
          have hk := h (j + 1) (by omega) (by omega)
          simpa only [iterFrom] using hk

/-- With fuel at least the remaining budget the loop always breaks before
the fuel runs out: the budget check must fire if the escape check never
does. -/
theorem in_mand_go_isSome (c : Complex) (iters : ℕ) :
    ∀ (fuel iter : ℕ) (z : Complex), 1 ≤ fuel → iters + 2 ≤ iter + fuel →
      (in_mand_go c iters fuel iter z).isSome = true
  | 0, _, _, h1, _ => absurd h1 (by omega)
  | fuel + 1, iter, z, _, hsum => by
    simp only [in_mand_go]
    by_cases hesc : 4 < (((z.square).plus c).dist_squared)
    · rw [if_pos hesc]; rfl
    · rw [if_neg hesc]
      by_cases hbud : iters < iter
      · rw [if_pos hbud]; rfl
      · rw [if_neg hbud]
        exact in_mand_go_isSome c iters fuel (iter + 1) ((z.square).plus c)
          (by omega) (by omega)

/-- Characterization of `in_mand`: the point is classified `In` exactly
when the first `iters + 2` iterates all stay at squared distance at
most 4. -/
theorem in_mand_true_iff (c : Complex) (iters : ℕ) :
    c.in_mand iters = true ↔
      ∀ j, 1 ≤ j → j ≤ iters + 2 → (iterFrom c j ⟨0, 0⟩).dist_squared ≤ 4 := by
  rw [← in_mand_go_true_iff c iters (iters + 2) 0 ⟨0, 0⟩ (by omega) (by omega)]
  unfold Complex.in_mand
  generalize in_mand_go c iters (iters + 2) 0 ⟨0, 0⟩ = o
  rcases o with _ | b
  · simp
  · rcases b with _ | _ <;> simp

/-- If some checked iterate escapes, the point is classified `Out`. -/
theorem in_mand_false_of_escape (c : Complex) (b j : ℕ) (hj1 : 1 ≤ j)
    (hj2 : j ≤ b + 2) (hesc : 4 < (iterFrom c j ⟨0, 0⟩).dist_squared) :
    c.in_mand b = false := by
  cases h : c.in_mand b
  · rfl
  · have hle := (in_mand_true_iff c b).mp h j hj1 hj2
    exact absurd hesc (not_lt.mpr hle)

/-- The first loop update maps `z = (0,0)` to the input point itself. -/
theorem step_zero (c : Complex) : ((Complex.mk 0 0).square).plus c = c := by
  cases c
  simp [Complex.square, Complex.plus]

/-- Invariant principle for `In` classifications: a predicate that holds at
the input point, is preserved by the loop update, and forces squared
distance at most 4, forces the classification `In` for every budget. -/
theorem in_mand_of_invariant (c : Complex) (b : ℕ) (P : Complex → Prop)
    (h1 : P c) (hstep : ∀ z, P z → P ((z.square).plus c))
    (hbound : ∀ z, P z → z.dist_squared ≤ 4) :
    c.in_mand b = true := by
  rw [in_mand_true_iff]
  have hP : ∀ j, P (iterFrom c (j + 1) ⟨0, 0⟩) := by
    intro j
    induction j with
    | zero =>
      have h0 : iterFrom c 1 ⟨0, 0⟩ = c := by
        simp only [iterFrom]
        exact step_zero c
      rw [h0]; exact h1
    | succ k ih =>
      rw [iterFrom_succ_apply]
      exact hstep _ ih
  intro j hj1 hj2
  obtain ⟨k, rfl⟩ : ∃ k, j = k + 1 := ⟨j - 1, by omega⟩
  exact hbound _ (hP k)

/-- C2 counterexample: the claim says a point is classified `In` exactly
after surviving `b + 1` escape checks; at `c = (3/2, 0)` with budget 0 the
first iterate (the only one the claim would check) does not escape, yet
the loop performs one more pass and classifies the point `Out`. -/
theorem C2_counterexample :
    ¬ (Complex.in_mand ⟨3/2, 0⟩ 0 = true ↔
        ∀ j, 1 ≤ j → j ≤ 0 + 1 →
          (iterFrom ⟨3/2, 0⟩ j ⟨0, 0⟩).dist_squared ≤ 4) := by
  intro h
  have hfalse : Complex.in_mand ⟨3/2, 0⟩ 0 = false :=
    in_mand_false_of_escape ⟨3/2, 0⟩ 0 2 (by omega) (by omega)
      (by norm_num [iterFrom, Complex.square, Complex.plus, Complex.dist_squared])
  have htrue : Complex.in_mand ⟨3/2, 0⟩ 0 = true := by
    refine h.mpr ?_
    intro j hj1 hj2
    have hj : j = 1 := by omega
    subst hj
    norm_num [iterFrom, Complex.square, Complex.plus, Complex.dist_squared]
  rw [hfalse] at htrue
  exact Bool.false_ne_true htrue

/-- C2 (amended): the budget comparison `iter > budget` is performed after
the squaring/addition and the escape check of each pass, so `in_mand c b`
classifies `In` exactly when the iterate survives `b + 2` escape checks
(the first `b + 2` iterates all have squared distance at most 4); the
effective maximum iteration count is `b + 2`, not `b + 1`. -/
theorem C2_amended_escape_checks (c : Complex) (b : ℕ) :
    c.in_mand b = true ↔
      ∀ j, 1 ≤ j → j ≤ b + 2 → (iterFrom c j ⟨0, 0⟩).dist_squared ≤ 4 :=
  in_mand_true_iff c b

/-- Witness for the amended C2 at the counterexample point (3/2, 0) with
budget 0. -/
theorem C2_amended_escape_checks_witness :
    (Complex.in_mand ⟨3/2, 0⟩ 0 = true ↔
      ∀ j, 1 ≤ j → j ≤ 0 + 2 →
        (iterFrom ⟨3/2, 0⟩ j ⟨0, 0⟩).dist_squared ≤ 4) :=
  C2_amended_escape_checks ⟨3/2, 0⟩ 0

/-- C3: starting from `z = (0,0)` and updating by `z = z.square().plus(c)`,
the point is classified `Out` whenever one of the checked iterates exceeds
squared distance 4; with budget 100 the points (0,0), (-1/2,0) and
(-1/5,-1/5) are classified `In` while (1/2,0) and (-3/2,1) are classified
`Out`. -/
theorem C3_escape_classification :
    (∀ (c : Complex) (b j : ℕ), 1 ≤ j → j ≤ b + 2 →
        4 < (iterFrom c j ⟨0, 0⟩).dist_squared → c.in_mand b = false) ∧
    Complex.in_mand ⟨0, 0⟩ 100 = true ∧
    Complex.in_mand ⟨1/2, 0⟩ 100 = false ∧
    Complex.in_mand ⟨-3/2, 1⟩ 100 = false ∧
    Complex.in_mand ⟨-1/2, 0⟩ 100 = true ∧
    Complex.in_mand ⟨-1/5, -1/5⟩ 100 = true := by
  refine ⟨fun c b j hj1 hj2 hesc => in_mand_false_of_escape c b j hj1 hj2 hesc,
    ?_, ?_, ?_, ?_, ?_⟩
  · refine in_mand_of_invariant _ _ (fun z => z = ⟨0, 0⟩) rfl ?_ ?_
    · intro z hz
      subst hz
      simp [Complex.square, Complex.plus]
    · intro z hz
      subst hz
      norm_num [Complex.dist_squared]
  · exact in_mand_false_of_escape _ _ 5 (by omega) (by omega)
      (by norm_num [iterFrom, Complex.square, Complex.plus, Complex.dist_squared])
  · exact in_mand_false_of_escape _ _ 2 (by omega) (by omega)
      (by norm_num [iterFrom, Complex.square, Complex.plus, Complex.dist_squared])
  · refine in_mand_of_invariant _ _
      (fun z => z.i = 0 ∧ -(1/2) ≤ z.r ∧ z.r ≤ 0)
      ⟨rfl, by norm_num, by norm_num⟩ ?_ ?_
    · rintro z ⟨hi, hlo, hhi⟩
      simp only [Complex.square, Complex.plus, hi]
      refine ⟨by ring, ?_, ?_⟩
      · nlinarith [mul_self_nonneg z.r]
      · nlinarith [mul_self_nonneg z.r]
    · rintro z ⟨hi, hlo, hhi⟩
      simp only [Complex.dist_squared, hi]
      nlinarith [mul_self_nonneg z.r]
  · refine in_mand_of_invariant _ _
      (fun z => -(443/2000) ≤ z.r ∧ z.r ≤ -(31/200) ∧
        -(21/100) ≤ z.i ∧ z.i ≤ -(21/200))
      ⟨by norm_num, by norm_num, by norm_num, by norm_num⟩ ?_ ?_
    · rintro z ⟨h1, h2, h3, h4⟩
      simp only [Complex.square, Complex.plus]
      refine ⟨?_, ?_, ?_, ?_⟩
      · nlinarith [sq_nonneg (z.r + 31/200),
          mul_nonneg (by linarith : (0:ℚ) ≤ z.i + 21/100) (by linarith : (0:ℚ) ≤ -z.i)]
      · nlinarith [sq_nonneg (z.i + 21/200),
          mul_nonneg (by linarith : (0:ℚ) ≤ z.r + 443/2000) (by linarith : (0:ℚ) ≤ -z.r)]
      · nlinarith [mul_nonneg (by linarith : (0:ℚ) ≤ -z.r - 31/200)
          (by linarith : (0:ℚ) ≤ -z.i - 21/200)]
      · nlinarith [mul_nonneg (by linarith : (0:ℚ) ≤ z.r + 443/2000)
          (by linarith : (0:ℚ) ≤ -z.i - 21/200)]
    · rintro z ⟨h1, h2, h3, h4⟩
      simp only [Complex.dist_squared]
      nlinarith [mul_nonneg (by linarith : (0:ℚ) ≤ z.r + 443/2000)
        (by linarith : (0:ℚ) ≤ -z.r),
        mul_nonneg (by linarith : (0:ℚ) ≤ z.i + 21/100)
        (by linarith : (0:ℚ) ≤ -z.i)]

/-- Witness for C3: the general escape part applied at `c = (-3/2, 1)`,
budget 100, whose second iterate (-1/4, -2) has squared distance 65/16. -/
theorem C3_escape_classification_witness :
    Complex.in_mand ⟨-3/2, 1⟩ 100 = false :=
  C3_escape_classification.1 ⟨-3/2, 1⟩ 100 2 (by omega) (by omega)
    (by norm_num [iterFrom, Complex.square, Complex.plus, Complex.dist_squared])

namespace FE

/-- A double extended with NaN: `none` is NaN, `some q` a finite value.
This second model of `f64` exists for the claims about NaN propagation;
rounding and infinities are still not modelled. -/
abbrev F : Type := Option ℚ

/-- Addition: NaN propagates through `+`. -/
def fadd : F → F → F
  | some a, some b => some (a + b)
  | _, _ => none

/-- Subtraction: NaN propagates through `-`. -/
def fsub : F → F → F
  | some a, some b => some (a - b)
  | _, _ => none

/-- Multiplication: NaN propagates through `*`. -/
def fmul : F → F → F
  | some a, some b => some (a * b)
  | _, _ => none

/-- The `>` comparison on doubles: every comparison with NaN is false. -/
def fgt : F → F → Bool
  | some a, some b => decide (b < a)
  | _, _ => false

theorem fadd_none_right (x : F) : fadd x none = none := by
  cases x <;> rfl

theorem fmul_none_left (y : F) : fmul none y = none := by
  cases y <;> rfl

theorem fsub_none_right (x : F) : fsub x none = none := by
  cases x <;> rfl

theorem fadd_none_left (y : F) : fadd none y = none := by
  cases y <;> rfl

/-- `Complex` over NaN-extended doubles. -/
structure Complex where
  r : F
  i : F

/-- `Complex::dist_squared` over NaN-extended doubles. -/
def Complex.dist_squared (z : Complex) : F :=
  fadd (fmul z.r z.r) (fmul z.i z.i)

/-- `Complex::square` over NaN-extended doubles. -/
def Complex.square (z : Complex) : Complex :=
  ⟨fsub (fmul z.r z.r) (fmul z.i z.i), fmul (fmul (some 2) z.r) z.i⟩

/-- `Complex::plus` over NaN-extended doubles. -/
def Complex.plus (z c : Complex) : Complex :=
  ⟨fadd z.r c.r, fadd z.i c.i⟩

/-- The `in_mand` loop over NaN-extended doubles, with the same fuel
discipline as the rational model. -/
def in_mand_go (c : Complex) (iters : ℕ) : ℕ → ℕ → Complex → Option Bool
  | 0, _, _ => none
  | fuel + 1, iter, z =>
    if fgt (((z.square).plus c).dist_squared) (some 4) then some false
    else if iters < iter then some true
    else in_mand_go c iters fuel (iter + 1) ((z.square).plus c)

/-- `Complex::in_mand` over NaN-extended doubles. -/
def Complex.in_mand (c : Complex) (iters : ℕ) : Bool :=
  (in_mand_go c iters (iters + 2) 0 ⟨some 0, some 0⟩).getD false

/-- If the input has a NaN component then every loop update produces a
NaN squared distance. -/
theorem dist_squared_step_nan (c z : Complex) (h : c.r = none ∨ c.i = none) :
    (((z.square).plus c).dist_squared) = none := by
  rcases h with h | h
  · show fadd (fmul (fadd (z.square).r c.r) (fadd (z.square).r c.r)) _ = none
    rw [h, fadd_none_right, fmul_none_left, fadd_none_left]
  · show fadd _ (fmul (fadd (z.square).i c.i) (fadd (z.square).i c.i)) = none
    rw [h, fadd_none_right, fmul_none_left, fadd_none_right]

/-- With a NaN input component the escape branch can never fire, so the
loop always leaves through the budget branch with `true`. -/
theorem in_mand_go_nan (c : Complex) (iters : ℕ)
    (h : c.r = none ∨ c.i = none) :
    ∀ (fuel iter : ℕ) (z : Complex), 1 ≤ fuel → iter + fuel = iters + 2 →
      in_mand_go c iters fuel iter z = some true
  | 0, _, _, h1, _ => absurd h1 (by omega)
  | fuel + 1, iter, z, _, hsum => by
    have hdn : (((z.square).plus c).dist_squared) = none :=
      dist_squared_step_nan c z h
    simp only [in_mand_go, hdn]
    have hgt : fgt none (some 4) = false := rfl
    rw [hgt]
    simp only [Bool.false_eq_true, if_false]
    by_cases hbud : iters < iter
    · rw [if_pos hbud]
    · rw [if_neg hbud]
      exact in_mand_go_nan c iters h fuel (iter + 1) ((z.square).plus c)
        (by omega) (by omega)

/-- The NaN-extended loop also always breaks before the fuel runs out. -/
theorem fe_go_isSome (c : Complex) (iters : ℕ) :
    ∀ (fuel iter : ℕ) (z : Complex), 1 ≤ fuel → iters + 2 ≤ iter + fuel →
      (in_mand_go c iters fuel iter z).isSome = true
  | 0, _, _, h1, _ => absurd h1 (by omega)
  | fuel + 1, iter, z, _, hsum => by
    simp only [in_mand_go]
    cases hesc : fgt ((((z.square).plus c).dist_squared)) (some 4)
    · simp only [Bool.false_eq_true, if_false]
      by_cases hbud : iters < iter
      · rw [if_pos hbud]; rfl
      · rw [if_neg hbud]
        exact fe_go_isSome c iters fuel (iter + 1) ((z.square).plus c)
          (by omega) (by omega)
    · simp

end FE

namespace FX

/-- A double with all IEEE special values: NaN, the two signed infinities,
or a finite value (as an exact rational).  This model of `f64` exists for
the termination claim, whose inputs include NaN and infinite components;
rounding and overflow of finite results are still not modelled, which
does not affect termination since the loop breaks by counting passes, not
by the values computed. -/
inductive F where
  | nan : F
  | pinf : F
  | ninf : F
  | fin : ℚ → F
deriving DecidableEq

/-- IEEE addition on special values: NaN propagates, opposite infinities
give NaN, an infinity absorbs finite values. -/
def fadd : F → F → F
  | F.nan, _ => F.nan
  | _, F.nan => F.nan
  | F.pinf, F.ninf => F.nan
  | F.ninf, F.pinf => F.nan
  | F.pinf, _ => F.pinf
  | _, F.pinf => F.pinf
  | F.ninf, _ => F.ninf
  | _, F.ninf => F.ninf
  | F.fin a, F.fin b => F.fin (a + b)

/-- IEEE subtraction on special values: NaN propagates, an infinity minus
itself gives NaN, otherwise infinities dominate with the proper sign. -/
def fsub : F → F → F
  | F.nan, _ => F.nan
  | _, F.nan => F.nan
  | F.pinf, F.pinf => F.nan
  | F.ninf, F.ninf => F.nan
  | F.pinf, _ => F.pinf
  | F.ninf, _ => F.ninf
  | _, F.pinf => F.ninf
  | _, F.ninf => F.pinf
  | F.fin a, F.fin b => F.fin (a - b)

/-- IEEE multiplication on special values: NaN propagates, zero times an
infinity is NaN, a nonzero finite or infinite factor gives a signed
infinity. -/
def fmul : F → F → F
  | F.nan, _ => F.nan
  | _, F.nan => F.nan
  | F.pinf, F.pinf => F.pinf
  | F.pinf, F.ninf => F.ninf
  | F.ninf, F.pinf => F.ninf
  | F.ninf, F.ninf => F.pinf
  | F.pinf, F.fin b => if b = 0 then F.nan else if 0 < b then F.pinf else F.ninf
  | F.ninf, F.fin b => if b = 0 then F.nan else if 0 < b then F.ninf else F.pinf
  | F.fin a, F.pinf => if a = 0 then F.nan else if 0 < a then F.pinf else F.ninf
  | F.fin a, F.ninf => if a = 0 then F.nan else if 0 < a then F.ninf else F.pinf
  | F.fin a, F.fin b => F.fin (a * b)

/-- The `>` comparison: false whenever NaN is involved; `+inf` is greater
than everything except itself, `-inf` is greater than nothing. -/
def fgt : F → F → Bool
  | F.nan, _ => false
  | _, F.nan => false
  | F.pinf, F.pinf => false
  | F.pinf, _ => true
  | F.ninf, _ => false
  | F.fin _, F.pinf => false
  | F.fin _, F.ninf => true
  | F.fin a, F.fin b => decide (b < a)

/-- `Complex` over doubles with NaN and infinities. -/
structure Complex where
  r : F
  i : F

/-- `Complex::dist_squared` over doubles with NaN and infinities. -/
def Complex.dist_squared (z : Complex) : F :=
  fadd (fmul z.r z.r) (fmul z.i z.i)

/-- `Complex::square` over doubles with NaN and infinities. -/
def Complex.square (z : Complex) : Complex :=
  ⟨fsub (fmul z.r z.r) (fmul z.i z.i), fmul (fmul (F.fin 2) z.r) z.i⟩

/-- `Complex::plus` over doubles with NaN and infinities. -/
def Complex.plus (z c : Complex) : Complex :=
  ⟨fadd z.r c.r, fadd z.i c.i⟩

/-- The `in_mand` loop over doubles with NaN and infinities, with the same
fuel discipline as the other two models. -/
def in_mand_go (c : Complex) (iters : ℕ) : ℕ → ℕ → Complex → Option Bool
  | 0, _, _ => none
  | fuel + 1, iter, z =>
    if fgt (((z.square).plus c).dist_squared) (F.fin 4) then some false
    else if iters < iter then some true
    else in_mand_go c iters fuel (iter + 1) ((z.square).plus c)

/-- `Complex::in_mand` over doubles with NaN and infinities. -/
def Complex.in_mand (c : Complex) (iters : ℕ) : Bool :=
  (in_mand_go c iters (iters + 2) 0 ⟨F.fin 0, F.fin 0⟩).getD false

/-- The loop over doubles with NaN and infinities also always breaks
before the fuel runs out, whatever the values: each pass either breaks or
increments the counter, and the budget check must fire by pass
`iters + 2`. -/
theorem fx_go_isSome (c : Complex) (iters : ℕ) :
    ∀ (fuel iter : ℕ) (z : Complex), 1 ≤ fuel → iters + 2 ≤ iter + fuel →
      (in_mand_go c iters fuel iter z).isSome = true
  | 0, _, _, h1, _ => absurd h1 (by omega)
  | fuel + 1, iter, z, _, hsum => by
    simp only [in_mand_go]
    cases hesc : fgt ((((z.square).plus c).dist_squared)) (F.fin 4)
    · simp only [Bool.false_eq_true, if_false]
      by_cases hbud : iters < iter
      · rw [if_pos hbud]; rfl
      · rw [if_neg hbud]
        exact fx_go_isSome c iters fuel (iter + 1) ((z.square).plus c)
          (by omega) (by omega)
    · simp

end FX

/-- C9: for every input and every budget `b` the loop terminates within
`b + 2` passes (the fuelled loop never returns `none` on fuel `b + 2`):
in the rational model, in the NaN-extended model, and in the model with
NaN and signed infinities, which together cover inputs with NaN or
infinite components. -/
theorem C9_in_mand_terminates :
    (∀ (c : Complex) (b : ℕ),
      (in_mand_go c b (b + 2) 0 ⟨0, 0⟩).isSome = true) ∧
    (∀ (c : FE.Complex) (b : ℕ),
      (FE.in_mand_go c b (b + 2) 0 ⟨some 0, some 0⟩).isSome = true) ∧
    (∀ (c : FX.Complex) (b : ℕ),
      (FX.in_mand_go c b (b + 2) 0 ⟨FX.F.fin 0, FX.F.fin 0⟩).isSome = true) :=
  ⟨fun c b => in_mand_go_isSome c b (b + 2) 0 ⟨0, 0⟩ (by omega) (by omega),
   fun c b => FE.fe_go_isSome c b (b + 2) 0 ⟨some 0, some 0⟩
     (by omega) (by omega),
   fun c b => FX.fx_go_isSome c b (b + 2) 0 ⟨FX.F.fin 0, FX.F.fin 0⟩
     (by omega) (by omega)⟩

/-- Witness for C9 at budget 0: at the origin, at a NaN input, and at an
input with an infinite and a NaN component. -/
theorem C9_in_mand_terminates_witness :
    (in_mand_go ⟨0, 0⟩ 0 (0 + 2) 0 ⟨0, 0⟩).isSome = true ∧
    (FE.in_mand_go ⟨none, some 0⟩ 0 (0 + 2) 0 ⟨some 0, some 0⟩).isSome = true ∧
    (FX.in_mand_go ⟨FX.F.pinf, FX.F.nan⟩ 0 (0 + 2) 0
      ⟨FX.F.fin 0, FX.F.fin 0⟩).isSome = true :=
  ⟨C9_in_mand_terminates.1 ⟨0, 0⟩ 0, C9_in_mand_terminates.2.1 ⟨none, some 0⟩ 0,
   C9_in_mand_terminates.2.2 ⟨FX.F.pinf, FX.F.nan⟩ 0⟩

/-- C10: a NaN component in the input makes every escape comparison
`dist_squared() > 4.0` false, so the point is always classified `In`. -/
theorem C10_nan_classified_in (c : FE.Complex) (b : ℕ)
    (h : c.r = none ∨ c.i = none) :
    c.in_mand b = true := by
  unfold FE.Complex.in_mand
  rw [FE.in_mand_go_nan c b h (b + 2) 0 ⟨some 0, some 0⟩ (by omega) (by omega)]
  rfl

/-- Witness for C10 at the concrete input (NaN, 0) with budget 0. -/
theorem C10_nan_classified_in_witness :
    FE.Complex.in_mand ⟨none, some 0⟩ 0 = true :=
  C10_nan_classified_in ⟨none, some 0⟩ 0 (Or.inl rfl)

/-- C1: for every pair of valid axis bounds, `Mand::new` produces an
engine with width = height = 800, a pixel buffer of length exactly
width * height whose every element is `In` or `Out`, and whose element at
each index `p` is `In` exactly when the index → RowCol → Complex →
`in_mand` (budget 200) pipeline accepts `p`, in index order. -/
theorem C1_mand_new_pipeline (x_min x_max y_min y_max : ℚ)
    (hx : x_min ≤ x_max) (hy : y_min ≤ y_max) :
    ∃ m : Mand, Mand.new x_min x_max y_min y_max = some m ∧
      m.width = 800 ∧ m.height = 800 ∧
      m.pixels.length = m.width * m.height ∧
      (∀ p : ℕ, ∀ hp : p < m.pixels.length,
        m.pixels.get ⟨p, hp⟩ =
          if ((RowCol.from_index p 800 800).to_complex ⟨x_min, x_max⟩
              ⟨y_min, y_max⟩).in_mand 200
          then Pixel.In else Pixel.Out) ∧
      (∀ q ∈ m.pixels, q = Pixel.In ∨ q = Pixel.Out) := by
  refine ⟨⟨800, 800, (List.range (800 * 800)).map fun p =>
      if ((RowCol.from_index p 800 800).to_complex ⟨x_min, x_max⟩
          ⟨y_min, y_max⟩).in_mand 200
      then Pixel.In else Pixel.Out⟩, ?_, rfl, rfl, ?_, ?_, ?_⟩
  · simp [Mand.new, CoordRange.new, hx, hy]
  · rw [List.length_map, List.length_range]
  · intro p hp
    simp only [List.get_eq_getElem, List.getElem_map, List.getElem_range]
  · intro q hq
    rcases q with _ | _
    · exact Or.inr rfl
    · exact Or.inl rfl

/-- Witness for C1 at the standard viewport [-2, 1] x [-3/2, 3/2]. -/
theorem C1_mand_new_pipeline_witness :
    ∃ m : Mand, Mand.new (-2) 1 (-3/2) (3/2) = some m ∧
      m.width = 800 ∧ m.height = 800 ∧
      m.pixels.length = m.width * m.height ∧
      (∀ p : ℕ, ∀ hp : p < m.pixels.length,
        m.pixels.get ⟨p, hp⟩ =
          if ((RowCol.from_index p 800 800).to_complex ⟨-2, 1⟩
              ⟨-3/2, 3/2⟩).in_mand 200
          then Pixel.In else Pixel.Out) ∧
      (∀ q ∈ m.pixels, q = Pixel.In ∨ q = Pixel.Out) :=
  C1_mand_new_pipeline (-2) 1 (-3/2) (3/2) (by norm_num) (by norm_num)

/-- C8: engine construction is deterministic: identical viewport bounds
produce identical engines, in particular identical widths, heights and
pixel buffers. -/
theorem C8_deterministic (a b c d a2 b2 c2 d2 : ℚ)
    (ha : a = a2) (hb : b = b2) (hc : c = c2) (hd : d = d2) :
    Mand.new a b c d = Mand.new a2 b2 c2 d2 ∧
    (Mand.new a b c d).map Mand.width = (Mand.new a2 b2 c2 d2).map Mand.width ∧
    (Mand.new a b c d).map Mand.height =
      (Mand.new a2 b2 c2 d2).map Mand.height ∧
    (Mand.new a b c d).map Mand.pixels =
      (Mand.new a2 b2 c2 d2).map Mand.pixels := by
  subst ha; subst hb; subst hc; subst hd
  exact ⟨rfl, rfl, rfl, rfl⟩

/-- Witness for C8 at the standard viewport bounds. -/
theorem C8_deterministic_witness :
    Mand.new (-2) 1 (-3/2) (3/2) = Mand.new (-2) 1 (-3/2) (3/2) ∧
    (Mand.new (-2) 1 (-3/2) (3/2)).map Mand.width =
      (Mand.new (-2) 1 (-3/2) (3/2)).map Mand.width ∧
    (Mand.new (-2) 1 (-3/2) (3/2)).map Mand.height =
      (Mand.new (-2) 1 (-3/2) (3/2)).map Mand.height ∧
    (Mand.new (-2) 1 (-3/2) (3/2)).map Mand.pixels =
      (Mand.new (-2) 1 (-3/2) (3/2)).map Mand.pixels :=
  C8_deterministic (-2) 1 (-3/2) (3/2) (-2) 1 (-3/2) (3/2) rfl rfl rfl rfl

end Mandel
